import Mathlib

/-!
Verification of the artifact-staging core of a small process supervisor
(`lib/preparable/process.go` and `lib/utils/file_util.go`).

The Go code is shallowly embedded: pure path derivations become Lean
functions, and the effectful operations (`os.MkdirAll`, file writes,
`exec.Command(...).Output()`, zip reading) are parameterised by oracles
describing the outcome of each external call.  Reading the last byte of a
string — `s[len(s)-1]`, a runtime panic on the empty string — is modelled
by `List.getLast?` on the string's character data, with `none` (hence an
`Option`-valued embedding) standing for the panic.
-/

set_option autoImplicit false

/-- Go error values, abstracted to their message. -/
abbrev GoError := String

/-! ### Go standard-library path helpers (`path/filepath`, `strings`) -/

/-- Split a character list into the `"/"`-separated components, as
`strings.Split`/`filepath` component iteration would produce them. -/
def splitSlashAux : List Char → List Char → List String
  | [], acc => [String.mk acc.reverse]
  | '/' :: rest, acc => String.mk acc.reverse :: splitSlashAux rest []
  | c :: rest, acc => splitSlashAux rest (c :: acc)

def splitSlash (cs : List Char) : List String :=
  splitSlashAux cs []

/-- Join components with `"/"` (no cleaning). -/
def joinSlash : List String → String
  | [] => ""
  | [x] => x
  | x :: xs => x ++ "/" ++ joinSlash xs

/-- The component pass of Go `filepath.Clean` (Unix rules): drop empty and
`"."` components; `".."` pops a previous component, is dropped at the root
of a rooted path, and is kept at the head of a relative path. -/
def cleanComponents (rooted : Bool) (cs : List String) : List String :=
  (cs.foldl (fun acc c =>
    if c = "" ∨ c = "." then acc
    else if c = ".." then
      match acc with
      | [] => if rooted then [] else [".."]
      | top :: rest => if top = ".." then ".." :: top :: rest else rest
    else c :: acc) []).reverse

/-- Go `filepath.Clean` for Unix paths. -/
def filepath.Clean (path : String) : String :=
  if path = "" then "."
  else
    let rooted := path.data.head? = some '/'
    let out := joinSlash (cleanComponents rooted (splitSlash path.data))
    if rooted then "/" ++ out
    else if out = "" then "." else out

/-- Go `filepath.Join` on two elements: empty elements are ignored and the
result is `Clean`ed. -/
def filepath.Join (a b : String) : String :=
  if a = "" ∧ b = "" then ""
  else if a = "" then filepath.Clean b
  else if b = "" then filepath.Clean a
  else filepath.Clean (a ++ "/" ++ b)

/-- Character index of the last `'/'` in a character list (Go
`strings.LastIndex(s, "/")`, with `none` for Go's `-1`). -/
def lastSlashIndex : List Char → Option Nat
  | [] => none
  | c :: rest =>
    match lastSlashIndex rest with
    | some j => some (j + 1)
    | none => if c = '/' then some 0 else none

/-- Go `filepath.Dir` for Unix paths: everything up to and including the
last separator, `Clean`ed; `"."` when there is no separator. -/
def filepath.Dir (path : String) : String :=
  match lastSlashIndex path.data with
  | none => "."
  | some i => filepath.Clean (String.mk (path.data.take (i + 1)))

/-! ### Zip archives and the extraction utility (`utils.Unzip`)

An archive is the list of entries `zip.OpenReader` would yield: a name, a
directory flag, a permission mode and the entry's bytes.  The filesystem
side effects are an oracle `FsOracle` giving the outcome of each external
call (`none` = success).  `Unzip` returns its control-flow outcome —
`ok`, an error value returned to the caller, or `fatal` for the
`log.Fatal` call that terminates the whole process — together with the
list of `(path, bytes)` file writes it performed. -/

structure ZipEntry where
  name : String
  isDir : Bool
  mode : Nat
  content : List Nat
deriving Repr, DecidableEq

inductive UnzipOutcome where
  /-- The call returned `nil`. -/
  | ok
  /-- The call returned the error `e` to its caller. -/
  | err (e : GoError)
  /-- Reached `log.Fatal(e)`: the whole process exits; nothing is returned. -/
  | fatal (e : GoError)
deriving Repr, DecidableEq

structure FsOracle where
  /-- Outcome of `zip.OpenReader(src)`. -/
  openReader : Option GoError
  /-- Outcome of `f.Open()` for the i-th entry. -/
  entryOpen : Nat → Option GoError
  /-- Outcome of `os.MkdirAll(path, mode)`. -/
  mkdirAll : String → Option GoError
  /-- Outcome of `os.OpenFile(path, O_WRONLY|O_CREATE|O_TRUNC, mode)`. -/
  openFile : String → Option GoError
  /-- Outcome of `io.Copy` for the i-th entry. -/
  copy : Nat → Option GoError

/-- The all-success oracle. -/
def FsOracle.allOk : FsOracle :=
  { openReader := none
    entryOpen := fun _ => none
    mkdirAll := fun _ => none
    openFile := fun _ => none
    copy := fun _ => none }

/-- The entry loop of `utils.Unzip` (file_util.go lines 72–105).  `i` is
the entry index (used only to address the oracle), `acc` the file writes
performed so far. -/
def unzipEntries (o : FsOracle) (dest : String) :
    List ZipEntry → Nat → List (String × List Nat) →
    UnzipOutcome × List (String × List Nat)
  | [], _, acc => (.ok, acc)
  | f :: rest, i, acc =>
    match o.entryOpen i with
    | some e => (.err e, acc)
    | none =>
      let fpath := filepath.Join dest f.name
      if f.isDir then
        -- os.MkdirAll(fpath, f.Mode()): the error result is discarded
        unzipEntries o dest rest (i + 1) acc
      else
        let fdir :=
          match lastSlashIndex fpath.data with
          | some idx => String.mk (fpath.data.take idx)
          | none => ""
        match o.mkdirAll fdir with
        | some e => (.fatal e, acc)  -- log.Fatal(err); the `return err` after it is unreachable
        | none =>
          match o.openFile fpath with
          | some e => (.err e, acc)
          | none =>
            match o.copy i with
            | some e => (.err e, acc)
            | none => unzipEntries o dest rest (i + 1) (acc ++ [(fpath, f.content)])

/-- Embedding of `utils.Unzip(src, dest)` over the archive that `src` holds. -/
def Unzip (o : FsOracle) (src dest : String) (archive : List ZipEntry) :
    UnzipOutcome × List (String × List Nat) :=
  match o.openReader with
  | some e => (.err e, [])
  | none => unzipEntries o dest archive 0 []

/-! ### The two Preparable variants (`lib/preparable/process.go`)

The structures keep the Go field names.  `getPath` both trims one trailing
`'/'` off `SysFolder` (a mutation of the receiver in the source) and
returns the workload directory, so it is modelled as state-passing:
`Option (state × result)`, with `none` for the index-out-of-range panic
that reading `SysFolder[len(SysFolder)-1]` raises on an empty string.
Under the guard that the last byte is `'/'`, `strings.TrimSuffix(s, "/")`
removes exactly that final byte, i.e. `List.dropLast` on the data. -/

structure Preparable where
  Name : String
  SourcePath : String
  Cmd : String
  WorkingDir : String
  SysFolder : String
  Language : String
  KeepAlive : Bool
  Args : List String
  Envs : List String
deriving Repr, DecidableEq

structure BinaryPreparable where
  Name : String
  SourcePath : String
  Cmd : String
  BZipFile : String
  SysFolder : String
  WorkingDir : String
  Language : String
  KeepAlive : Bool
  Args : List String
  Envs : List String
deriving Repr, DecidableEq

/-- The `SysFolder` value after one `getPath` call: one trailing `'/'`
trimmed off when present (process.go lines 120–122 and 239–241). -/
def normSys (s : String) : String :=
  if s.data.getLast? = some '/' then String.mk s.data.dropLast else s

/-- The workload directory `sysFolder/name` that a `getPath` call returns
(after its trailing-separator trim). -/
def workloadDir (sysFolder name : String) : String :=
  normSys sysFolder ++ "/" ++ name

def Preparable.getPath (p : Preparable) : Option (Preparable × String) :=
  match p.SysFolder.data.getLast? with
  | none => none  -- SysFolder[len(SysFolder)-1] panics on the empty string
  | some c =>
    let p := if c = '/' then { p with SysFolder := String.mk p.SysFolder.data.dropLast } else p
    some (p, p.SysFolder ++ "/" ++ p.Name)

def Preparable.getBinPath (p : Preparable) : Option (Preparable × String) :=
  p.getPath.map fun pr => (pr.1, pr.2 ++ "/" ++ pr.1.Name)

def Preparable.getPidPath (p : Preparable) : Option (Preparable × String) :=
  p.getBinPath.map fun pr => (pr.1, pr.2 ++ ".pid")

def Preparable.getOutPath (p : Preparable) : Option (Preparable × String) :=
  p.getBinPath.map fun pr => (pr.1, pr.2 ++ ".out")

def Preparable.getErrPath (p : Preparable) : Option (Preparable × String) :=
  p.getBinPath.map fun pr => (pr.1, pr.2 ++ ".err")

def Preparable.Identifier (p : Preparable) : String :=
  p.Name

/-- Outcome of `exec.Command(cmd, cmdArgs...).Output()`: captured stdout
and an optional error. -/
def ExecOracle := String → List String → List Nat × Option GoError

/-- Embedding of `Preparable.PrepareBin` (process.go lines 58–74): trim a trailing
`'/'` off `SourcePath`, derive the binary path (mutating `SysFolder`),
set `Cmd` to it, and run the toolchain, returning its captured output and
error. -/
def Preparable.PrepareBin (exec : ExecOracle) (p : Preparable) :
    Option (Preparable × List Nat × Option GoError) :=
  match p.SourcePath.data.getLast? with
  | none => none  -- SourcePath[len(SourcePath)-1] panics on the empty string
  | some c =>
    let p := if c = '/' then { p with SourcePath := String.mk p.SourcePath.data.dropLast } else p
    match p.getBinPath with
    | none => none
    | some (p, binPath) =>
      let cmdLine :=
        if p.Language = "go" then ("go", ["build", "-o", binPath, p.SourcePath ++ "/."])
        else ("", ([] : List String))
      let p := { p with Cmd := binPath }
      let (out, err) := exec cmdLine.1 cmdLine.2
      some (p, out, err)

def BinaryPreparable.getPath (p : BinaryPreparable) : Option (BinaryPreparable × String) :=
  match p.SysFolder.data.getLast? with
  | none => none  -- SysFolder[len(SysFolder)-1] panics on the empty string
  | some c =>
    let p := if c = '/' then { p with SysFolder := String.mk p.SysFolder.data.dropLast } else p
    some (p, p.SysFolder ++ "/" ++ p.Name)

def BinaryPreparable.getBinPath (p : BinaryPreparable) : String :=
  p.SourcePath

def BinaryPreparable.getPidPath (p : BinaryPreparable) : Option (BinaryPreparable × String) :=
  p.getPath.map fun pr => (pr.1, pr.2 ++ "/" ++ pr.1.Name ++ ".pid")

def BinaryPreparable.getOutPath (p : BinaryPreparable) : Option (BinaryPreparable × String) :=
  p.getPath.map fun pr => (pr.1, pr.2 ++ "/" ++ pr.1.Name ++ ".out")

def BinaryPreparable.getErrPath (p : BinaryPreparable) : Option (BinaryPreparable × String) :=
  p.getPath.map fun pr => (pr.1, pr.2 ++ "/" ++ pr.1.Name ++ ".err")

def BinaryPreparable.Identifier (p : BinaryPreparable) : String :=
  p.Name

/-- Oracles for the external calls of `BinaryPreparable.PrepareBin`,
together with the archive held by the staged zip payload. -/
structure BinEnv where
  /-- Outcome of `os.MkdirAll(path, 0755)`. -/
  mkdirAll : String → Option GoError
  /-- Result of `base64.StdEncoding.DecodeString` on the given payload. -/
  decode : String → Except GoError (List Nat)
  /-- Outcome of `ioutil.WriteFile(path, bytes, 0644)`. -/
  writeFile : String → List Nat → Option GoError
  /-- Oracle for the filesystem calls inside `utils.Unzip`. -/
  fs : FsOracle
  /-- The entries of the zip archive carried by the payload. -/
  archive : List ZipEntry

inductive BinPrepResult where
  /-- The call returned `(output, err)` with final receiver state `p`
  and the file writes `writes` it performed. -/
  | ret (p : BinaryPreparable) (output : List Nat) (err : Option GoError)
        (writes : List (String × List Nat))
  /-- Reached `log.Fatal` inside `utils.Unzip`; the process terminated. -/
  | fatal (e : GoError)
deriving Repr, DecidableEq

/-- Embedding of `BinaryPreparable.PrepareBin` (process.go lines 146–185): create the
workload and runtime directories, inject the two environment entries,
decode the base64 payload, stage it as `function.zip`, extract it with
`utils.Unzip` (an extraction error is only logged), and set `Cmd` to
`<workload dir>/runtime/bootstrap`, returning the extraction error. -/
def BinaryPreparable.PrepareBin (env : BinEnv) (p : BinaryPreparable) :
    Option BinPrepResult :=
  match p.getOutPath with
  | none => none
  | some (p, outPath) =>
    match env.mkdirAll (filepath.Dir outPath) with
    | some e => some (.ret p [] (some e) [])
    | none =>
      match p.getPath with
      | none => none
      | some (p, path₁) =>
        let runtimePath := path₁ ++ "/runtime"
        match env.mkdirAll runtimePath with
        | some e => some (.ret p [] (some e) [])
        | none =>
          let p := { p with Envs := p.Envs ++
            ["LAMBDA_TASK_ROOT=" ++ runtimePath, "PATH=/home/silas/.deno/bin:/usr/bin"] }
          match env.decode p.BZipFile with
          | .error e => some (.ret p [] (some e) [])
          | .ok decoded =>
            match p.getPath with
            | none => none
            | some (p, path₂) =>
              let zipPath := path₂ ++ "/function.zip"
              match env.writeFile zipPath decoded with
              | some e => some (.ret p [] (some e) [])
              | none =>
                match Unzip env.fs zipPath runtimePath env.archive with
                | (.fatal e, _) => some (.fatal e)
                | (res, ws) =>
                  match p.getPath with
                  | none => none
                  | some (p, path₃) =>
                    let p := { p with Cmd := path₃ ++ "/runtime/bootstrap" }
                    some (.ret p []
                      (match res with | .err e => some e | _ => none)
                      ((zipPath, decoded) :: ws))

/-- The pid-file path as a function of `(sysFolder, name)` alone; both
variants derive this same string (`workloadDir/name + ".pid"`). -/
def pidPathOf (sysFolder name : String) : String :=
  workloadDir sysFolder name ++ "/" ++ name ++ ".pid"

def outPathOf (sysFolder name : String) : String :=
  workloadDir sysFolder name ++ "/" ++ name ++ ".out"

def errPathOf (sysFolder name : String) : String :=
  workloadDir sysFolder name ++ "/" ++ name ++ ".err"

/-! ### Locked TOML persistence (`utils.SafeReadTomlFile` / `utils.SafeWriteTomlFile`)

The registry value type and the TOML codec live outside the two source
files (the registry in the supervisor, the codec in the `toml` library),
so they are modelled structurally: a file holds a TOML document (abstract
syntax), the encoder maps a registry to a document and the decoder reads
it back field by field.  `MakeFileMutex` serialises the two operations on
the same path; in this sequential model each operation is one atomic step
on the filesystem map, which is exactly what holding the lock for the
span of one decode or one encode guarantees. -/

/-- Sequence an option-valued function over a list (the decoder's
element-wise traversal). -/
def mapMOption {α β : Type} (f : α → Option β) : List α → Option (List β)
  | [] => some []
  | x :: xs => (f x).bind fun y => (mapMOption f xs).map fun ys => y :: ys

/-- TOML document values (abstract syntax). -/
inductive Toml where
  | str (s : String)
  | boolV (b : Bool)
  | arr (xs : List Toml)
  | table (kvs : List (String × Toml))

def Toml.asStr : Toml → Option String
  | .str s => some s
  | _ => none

def Toml.asBool : Toml → Option Bool
  | .boolV b => some b
  | _ => none

def Toml.asStrList : Toml → Option (List String)
  | .arr xs => mapMOption Toml.asStr xs
  | _ => none

/-- Key lookup in a TOML table. -/
def lookupKey : List (String × Toml) → String → Option Toml
  | [], _ => none
  | (k, v) :: rest, key => if k = key then some v else lookupKey rest key

/-- Modelled from the spec: one persisted workload-descriptor entry of the
supervisor registry (the registry type itself is outside the two source
files).  Fields follow the descriptor fields of the data model. -/
structure ProcData where
  name : String
  sourcePath : String
  sysFolder : String
  language : String
  keepAlive : Bool
  args : List String
  envs : List String
deriving Repr, DecidableEq

def encodeProcData (d : ProcData) : Toml :=
  .table [("Name", .str d.name), ("SourcePath", .str d.sourcePath),
          ("SysFolder", .str d.sysFolder), ("Language", .str d.language),
          ("KeepAlive", .boolV d.keepAlive),
          ("Args", .arr (d.args.map .str)), ("Envs", .arr (d.envs.map .str))]

def decodeProcData (t : Toml) : Option ProcData :=
  match t with
  | .table kvs => do
    let name ← (lookupKey kvs "Name").bind Toml.asStr
    let sourcePath ← (lookupKey kvs "SourcePath").bind Toml.asStr
    let sysFolder ← (lookupKey kvs "SysFolder").bind Toml.asStr
    let language ← (lookupKey kvs "Language").bind Toml.asStr
    let keepAlive ← (lookupKey kvs "KeepAlive").bind Toml.asBool
    let args ← (lookupKey kvs "Args").bind Toml.asStrList
    let envs ← (lookupKey kvs "Envs").bind Toml.asStrList
    some ⟨name, sourcePath, sysFolder, language, keepAlive, args, envs⟩
  | _ => none

/-- Modelled from the spec: the persisted registry is a collection of
descriptor entries. -/
def encodeRegistry (v : List ProcData) : Toml :=
  .arr (v.map encodeProcData)

def decodeRegistry : Toml → Option (List ProcData)
  | .arr ts => mapMOption decodeProcData ts
  | _ => none

/-- The filesystem as seen by the TOML utilities: most recent document
written to each path first. -/
def TomlFs := List (String × Toml)

/-- Embedding of `utils.SafeWriteTomlFile` (file_util.go lines 41-52): under the path
lock, truncate and rewrite the file with the encoding of `v`. -/
def SafeWriteTomlFile (v : List ProcData) (filename : String) (fs : TomlFs) : TomlFs :=
  (filename, encodeRegistry v) :: fs

/-- Embedding of `utils.SafeReadTomlFile` (file_util.go lines 30-37): under the path
lock, decode the structured contents of the file into the caller shape. -/
def SafeReadTomlFile (filename : String) (fs : TomlFs) : Except GoError (List ProcData) :=
  match lookupKey fs filename with
  | none => .error "open: no such file"
  | some doc =>
    match decodeRegistry doc with
    | some v => .ok v
    | none => .error "toml: decode failure"

/-! ### Basic facts about the string model -/

theorem string_eq_empty_of_data_eq_nil {s : String} (h : s.data = []) : s = "" := by
  cases s with
  | mk d => subst h; rfl

theorem exists_getLast?_data {s : String} (h : s ≠ "") :
    ∃ c, s.data.getLast? = some c := by
  cases hd : s.data.getLast? with
  | some c => exact ⟨c, rfl⟩
  | none =>
    rw [List.getLast?_eq_none_iff] at hd
    exact absurd (string_eq_empty_of_data_eq_nil hd) h

theorem string_append_data (s t : String) : (s ++ t).data = s.data ++ t.data := rfl

theorem getLast?_data_append_slash (s : String) :
    (s ++ "/").data.getLast? = some '/' := by
  rw [string_append_data]
  exact List.getLast?_concat _

theorem mk_dropLast_data_append_slash (s : String) :
    String.mk ((s ++ "/").data.dropLast) = s := by
  rw [string_append_data]
  show String.mk ((s.data ++ ['/']).dropLast) = s
  rw [List.dropLast_concat]

theorem append_slash_ne_empty (s : String) : s ++ "/" ≠ "" := by
  intro h
  have hd : (s ++ "/").data = [] := by rw [h]
  rw [string_append_data] at hd
  simp at hd

theorem normSys_eq_self {s : String} (h : s.data.getLast? ≠ some '/') :
    normSys s = s := by
  rw [normSys, if_neg h]

theorem normSys_append_slash (s : String) : normSys (s ++ "/") = s := by
  rw [normSys, if_pos (getLast?_data_append_slash s)]
  exact mk_dropLast_data_append_slash s

/-! ### Characterisation of the path derivations -/

theorem Preparable.getPath_eq (p : Preparable) (h : p.SysFolder ≠ "") :
    p.getPath = some ({ p with SysFolder := normSys p.SysFolder },
                      workloadDir p.SysFolder p.Name) := by
  obtain ⟨c, hc⟩ := exists_getLast?_data h
  by_cases h' : c = '/'
  · subst h'
    simp [Preparable.getPath, hc, normSys, workloadDir]
  · simp [Preparable.getPath, hc, normSys, workloadDir, h']

theorem binary_getPath_eq (q : BinaryPreparable) (h : q.SysFolder ≠ "") :
    q.getPath = some ({ q with SysFolder := normSys q.SysFolder },
                      workloadDir q.SysFolder q.Name) := by
  obtain ⟨c, hc⟩ := exists_getLast?_data h
  by_cases h' : c = '/'
  · subst h'
    simp [BinaryPreparable.getPath, hc, normSys, workloadDir]
  · simp [BinaryPreparable.getPath, hc, normSys, workloadDir, h']

theorem Preparable.getBinPath_eq (p : Preparable) (h : p.SysFolder ≠ "") :
    p.getBinPath = some ({ p with SysFolder := normSys p.SysFolder },
                         workloadDir p.SysFolder p.Name ++ "/" ++ p.Name) := by
  simp [Preparable.getBinPath, Preparable.getPath_eq p h]

theorem Preparable.getPidPath_eq (p : Preparable) (h : p.SysFolder ≠ "") :
    p.getPidPath = some ({ p with SysFolder := normSys p.SysFolder },
                         pidPathOf p.SysFolder p.Name) := by
  simp [Preparable.getPidPath, Preparable.getBinPath_eq p h, pidPathOf]

theorem Preparable.getOutPath_eq (p : Preparable) (h : p.SysFolder ≠ "") :
    p.getOutPath = some ({ p with SysFolder := normSys p.SysFolder },
                         outPathOf p.SysFolder p.Name) := by
  simp [Preparable.getOutPath, Preparable.getBinPath_eq p h, outPathOf]

theorem Preparable.getErrPath_eq (p : Preparable) (h : p.SysFolder ≠ "") :
    p.getErrPath = some ({ p with SysFolder := normSys p.SysFolder },
                         errPathOf p.SysFolder p.Name) := by
  simp [Preparable.getErrPath, Preparable.getBinPath_eq p h, errPathOf]

theorem binary_getPidPath_eq (q : BinaryPreparable) (h : q.SysFolder ≠ "") :
    q.getPidPath = some ({ q with SysFolder := normSys q.SysFolder },
                         pidPathOf q.SysFolder q.Name) := by
  simp [BinaryPreparable.getPidPath, binary_getPath_eq q h, pidPathOf, workloadDir]

theorem binary_getOutPath_eq (q : BinaryPreparable) (h : q.SysFolder ≠ "") :
    q.getOutPath = some ({ q with SysFolder := normSys q.SysFolder },
                         outPathOf q.SysFolder q.Name) := by
  simp [BinaryPreparable.getOutPath, binary_getPath_eq q h, outPathOf, workloadDir]

theorem binary_getErrPath_eq (q : BinaryPreparable) (h : q.SysFolder ≠ "") :
    q.getErrPath = some ({ q with SysFolder := normSys q.SysFolder },
                         errPathOf q.SysFolder q.Name) := by
  simp [BinaryPreparable.getErrPath, binary_getPath_eq q h, errPathOf, workloadDir]

/-- A `getPath` call is the identity on a state whose `SysFolder` is
non-empty and has no trailing separator. -/
theorem binary_getPath_fix (r : BinaryPreparable)
    (h1 : r.SysFolder ≠ "") (h2 : r.SysFolder.data.getLast? ≠ some '/') :
    r.getPath = some (r, r.SysFolder ++ "/" ++ r.Name) := by
  obtain ⟨c, hc⟩ := exists_getLast?_data h1
  have hcs : ¬ c = '/' := fun h => h2 (h ▸ hc)
  simp [BinaryPreparable.getPath, hc, hcs]

/-- A complete run of `BinaryPreparable.PrepareBin`: when both directory
creations and the staging write succeed and the payload decodes, and the
extraction does not hit the `log.Fatal` path, the call runs to the end,
returns the extraction error (if any) as its own error, and resolves
`Cmd` to `<workload dir>/runtime/bootstrap`. -/
theorem binPrepareBin_run (env : BinEnv) (q : BinaryPreparable)
    (res : UnzipOutcome) (ws : List (String × List Nat)) (bs : List Nat)
    (hq : q.SysFolder ≠ "")
    (h1 : normSys q.SysFolder ≠ "")
    (h2 : (normSys q.SysFolder).data.getLast? ≠ some '/')
    (hmk : ∀ s, env.mkdirAll s = none)
    (hdec : env.decode q.BZipFile = Except.ok bs)
    (hwr : ∀ s b, env.writeFile s b = none)
    (hz : Unzip env.fs (workloadDir q.SysFolder q.Name ++ "/function.zip")
            (workloadDir q.SysFolder q.Name ++ "/runtime") env.archive = (res, ws))
    (hres : ∀ e, res ≠ UnzipOutcome.fatal e) :
    BinaryPreparable.PrepareBin env q = some (BinPrepResult.ret
      { q with SysFolder := normSys q.SysFolder,
               Envs := q.Envs ++
                 ["LAMBDA_TASK_ROOT=" ++ (workloadDir q.SysFolder q.Name ++ "/runtime"),
                  "PATH=/home/silas/.deno/bin:/usr/bin"],
               Cmd := workloadDir q.SysFolder q.Name ++ "/runtime/bootstrap" }
      [] (match res with | .err e => some e | _ => none)
      ((workloadDir q.SysFolder q.Name ++ "/function.zip", bs) :: ws)) := by
  have hout := binary_getOutPath_eq q hq
  have hfix1 := binary_getPath_fix { q with SysFolder := normSys q.SysFolder } h1 h2
  have hfix2 := binary_getPath_fix
    { q with SysFolder := normSys q.SysFolder,
             Envs := q.Envs ++
               ["LAMBDA_TASK_ROOT=" ++ (workloadDir q.SysFolder q.Name ++ "/runtime"),
                "PATH=/home/silas/.deno/bin:/usr/bin"] } h1 h2
  simp only [workloadDir] at hz hfix1 hfix2 ⊢
  simp only [BinaryPreparable.PrepareBin, hout, hmk, hfix1, hfix2, hdec, hwr, hz]
  cases res with
  | ok => simp
  | err e => simp
  | fatal e => exact absurd rfl (hres e)

theorem FsOracle.allOk_openReader : FsOracle.allOk.openReader = none := rfl

theorem FsOracle.allOk_entryOpen (i : Nat) : FsOracle.allOk.entryOpen i = none := rfl

theorem FsOracle.allOk_mkdirAll (s : String) : FsOracle.allOk.mkdirAll s = none := rfl

theorem FsOracle.allOk_openFile (s : String) : FsOracle.allOk.openFile s = none := rfl

theorem FsOracle.allOk_copy (i : Nat) : FsOracle.allOk.copy i = none := rfl

/-- With the all-success filesystem oracle, extraction succeeds and writes
exactly the non-directory entries, each at `filepath.Join dest name`. -/
theorem unzipEntries_allOk (dest : String) (entries : List ZipEntry) (i : Nat)
    (acc : List (String × List Nat)) :
    unzipEntries FsOracle.allOk dest entries i acc =
      (UnzipOutcome.ok, acc ++ entries.filterMap fun f =>
        if f.isDir then none else some (filepath.Join dest f.name, f.content)) := by
  induction entries generalizing i acc with
  | nil => simp [unzipEntries]
  | cons f rest ih =>
    by_cases hd : f.isDir
    · simp [unzipEntries, FsOracle.allOk_entryOpen, FsOracle.allOk_mkdirAll,
        FsOracle.allOk_openFile, FsOracle.allOk_copy, hd, ih]
    · simp [unzipEntries, FsOracle.allOk_entryOpen, FsOracle.allOk_mkdirAll,
        FsOracle.allOk_openFile, FsOracle.allOk_copy, hd, ih]

theorem Unzip_allOk (src dest : String) (archive : List ZipEntry) :
    Unzip FsOracle.allOk src dest archive =
      (UnzipOutcome.ok, archive.filterMap fun f =>
        if f.isDir then none else some (filepath.Join dest f.name, f.content)) := by
  simp [Unzip, FsOracle.allOk_openReader, unzipEntries_allOk]

/-! ### Behaviour on empty fields (the unguarded last-byte reads) -/

theorem Preparable.getPath_none (p : Preparable) (h : p.SysFolder = "") :
    p.getPath = none := by
  have hd : p.SysFolder.data.getLast? = none := by rw [h]; rfl
  simp [Preparable.getPath, hd]

theorem Preparable.getBinPath_none (p : Preparable) (h : p.SysFolder = "") :
    p.getBinPath = none := by
  simp [Preparable.getBinPath, Preparable.getPath_none p h]

theorem binary_getPath_none (q : BinaryPreparable) (h : q.SysFolder = "") :
    q.getPath = none := by
  have hd : q.SysFolder.data.getLast? = none := by rw [h]; rfl
  simp [BinaryPreparable.getPath, hd]

/-! ### Round-trip of the structural TOML codec -/

theorem mapMOption_asStr_map_str (xs : List String) :
    mapMOption Toml.asStr (xs.map Toml.str) = some xs := by
  induction xs with
  | nil => rfl
  | cons x xs ih => simp [mapMOption, ih, Toml.asStr]

theorem decodeProcData_encodeProcData (d : ProcData) :
    decodeProcData (encodeProcData d) = some d := by
  simp [decodeProcData, encodeProcData, lookupKey, Toml.asStr, Toml.asBool,
    Toml.asStrList, mapMOption_asStr_map_str]

theorem mapMOption_decodeProcData (v : List ProcData) :
    mapMOption decodeProcData (v.map encodeProcData) = some v := by
  induction v with
  | nil => rfl
  | cons d ds ih => simp [mapMOption, decodeProcData_encodeProcData, ih]

/-! ### The claims -/

/-- C1: claimed — extraction rejects `..`-escaping entry paths and never
writes outside the destination root.  The code does neither: on an archive
whose single entry is named `"../../etc/passwd"`, `Unzip` into
`"/work/runtime"` succeeds (returns `nil`) and writes the entry's bytes to
`"/etc/passwd"`, a path outside the destination root. -/
theorem C1_unzip_traversal_not_rejected :
    Unzip FsOracle.allOk "/work/function.zip" "/work/runtime"
        [⟨"../../etc/passwd", false, 420, [42]⟩]
      = (UnzipOutcome.ok, [("/etc/passwd", [42])])
  ∧ ("/work/runtime".data.isPrefixOf "/etc/passwd".data) = false := by
  decide

/-- C2: claimed — a failing entry makes `Unzip` return the failure to its
caller, and no extraction failure is fatal to the process.  The code
instead calls `log.Fatal(err)` when `os.MkdirAll` for an entry's parent
directory fails, terminating the whole process (the `return err` after it
is unreachable): extracting an archive with entry `"a/b.txt"` into
`"/dest"` when creating `"/dest/a"` fails ends in the fatal outcome, not
an error return. -/
theorem C2_unzip_mkdir_failure_fatal :
    Unzip { FsOracle.allOk with mkdirAll := fun _ => some "permission denied" }
        "/work/function.zip" "/dest" [⟨"a/b.txt", false, 420, [1]⟩]
      = (UnzipOutcome.fatal "permission denied", []) := by
  decide

/-- C3: for a binary-bundle descriptor whose payload decodes and whose
directory creations and staging write succeed, an error returned by the
extraction step does not abort `PrepareBin`: the call runs to completion,
returns that error, and still resolves `Cmd` to
`workloadDir/runtime/bootstrap`. -/
theorem C3_extraction_failure_does_not_abort (env : BinEnv) (q : BinaryPreparable)
    (bs : List Nat) (e : GoError) (ws : List (String × List Nat))
    (hq : q.SysFolder ≠ "")
    (h1 : normSys q.SysFolder ≠ "")
    (h2 : (normSys q.SysFolder).data.getLast? ≠ some '/')
    (hmk : ∀ s, env.mkdirAll s = none)
    (hdec : env.decode q.BZipFile = Except.ok bs)
    (hwr : ∀ s b, env.writeFile s b = none)
    (hz : Unzip env.fs (workloadDir q.SysFolder q.Name ++ "/function.zip")
            (workloadDir q.SysFolder q.Name ++ "/runtime") env.archive
          = (UnzipOutcome.err e, ws)) :
    ∃ q', BinaryPreparable.PrepareBin env q = some (BinPrepResult.ret q' []
            (some e) ((workloadDir q.SysFolder q.Name ++ "/function.zip", bs) :: ws))
      ∧ q'.Cmd = workloadDir q.SysFolder q.Name ++ "/runtime/bootstrap" :=
  ⟨_, binPrepareBin_run env q (UnzipOutcome.err e) ws bs hq h1 h2 hmk hdec hwr hz
        (fun _ h => by cases h), rfl⟩

theorem C3_witness :
    ∃ q', BinaryPreparable.PrepareBin
        ⟨fun _ => none, fun _ => Except.ok [7], fun _ _ => none,
         { FsOracle.allOk with openReader := some "bad zip" }, []⟩
        ⟨"app", "", "", "payload", "/sys", "", "", true, [], []⟩
      = some (BinPrepResult.ret q' [] (some "bad zip")
          ((workloadDir "/sys" "app" ++ "/function.zip", [7]) :: []))
      ∧ q'.Cmd = workloadDir "/sys" "app" ++ "/runtime/bootstrap" :=
  C3_extraction_failure_does_not_abort _ _ [7] "bad zip" []
    (by decide) (by decide) (by decide) (fun _ => rfl) rfl (fun _ _ => rfl) rfl

/-- C4: the path-derivation policy: both variants place the workload
directory at `sysFolder/name` (trailing separator trimmed); the
source-build binary path is `workloadDir/name` and its pid/out/err paths
append `".pid"`/`".out"`/`".err"` to the binary path; the binary-bundle
pid/out/err paths append them to `workloadDir/name`, and a completed
binary-bundle `PrepareBin` resolves the command to
`workloadDir/runtime/bootstrap`. -/
theorem C4_path_derivation_policy (p : Preparable) (q : BinaryPreparable)
    (env : BinEnv) (bs : List Nat) (res : UnzipOutcome) (ws : List (String × List Nat))
    (hp : p.SysFolder ≠ "")
    (hq : q.SysFolder ≠ "")
    (h1 : normSys q.SysFolder ≠ "")
    (h2 : (normSys q.SysFolder).data.getLast? ≠ some '/')
    (hmk : ∀ s, env.mkdirAll s = none)
    (hdec : env.decode q.BZipFile = Except.ok bs)
    (hwr : ∀ s b, env.writeFile s b = none)
    (hz : Unzip env.fs (workloadDir q.SysFolder q.Name ++ "/function.zip")
            (workloadDir q.SysFolder q.Name ++ "/runtime") env.archive = (res, ws))
    (hres : ∀ e, res ≠ UnzipOutcome.fatal e) :
    p.getPath = some ({ p with SysFolder := normSys p.SysFolder },
      workloadDir p.SysFolder p.Name)
  ∧ p.getBinPath = some ({ p with SysFolder := normSys p.SysFolder },
      workloadDir p.SysFolder p.Name ++ "/" ++ p.Name)
  ∧ p.getPidPath = some ({ p with SysFolder := normSys p.SysFolder },
      (workloadDir p.SysFolder p.Name ++ "/" ++ p.Name) ++ ".pid")
  ∧ p.getOutPath = some ({ p with SysFolder := normSys p.SysFolder },
      (workloadDir p.SysFolder p.Name ++ "/" ++ p.Name) ++ ".out")
  ∧ p.getErrPath = some ({ p with SysFolder := normSys p.SysFolder },
      (workloadDir p.SysFolder p.Name ++ "/" ++ p.Name) ++ ".err")
  ∧ q.getPath = some ({ q with SysFolder := normSys q.SysFolder },
      workloadDir q.SysFolder q.Name)
  ∧ q.getPidPath = some ({ q with SysFolder := normSys q.SysFolder },
      (workloadDir q.SysFolder q.Name ++ "/" ++ q.Name) ++ ".pid")
  ∧ q.getOutPath = some ({ q with SysFolder := normSys q.SysFolder },
      (workloadDir q.SysFolder q.Name ++ "/" ++ q.Name) ++ ".out")
  ∧ q.getErrPath = some ({ q with SysFolder := normSys q.SysFolder },
      (workloadDir q.SysFolder q.Name ++ "/" ++ q.Name) ++ ".err")
  ∧ (∃ q' oerr ws', BinaryPreparable.PrepareBin env q = some (BinPrepResult.ret q' [] oerr ws')
      ∧ q'.Cmd = workloadDir q.SysFolder q.Name ++ "/runtime/bootstrap") := by
  refine ⟨Preparable.getPath_eq p hp, Preparable.getBinPath_eq p hp, ?_, ?_, ?_,
    binary_getPath_eq q hq, ?_, ?_, ?_, ?_⟩
  · rw [Preparable.getPidPath_eq p hp]; simp [pidPathOf]
  · rw [Preparable.getOutPath_eq p hp]; simp [outPathOf]
  · rw [Preparable.getErrPath_eq p hp]; simp [errPathOf]
  · rw [binary_getPidPath_eq q hq]; simp [pidPathOf]
  · rw [binary_getOutPath_eq q hq]; simp [outPathOf]
  · rw [binary_getErrPath_eq q hq]; simp [errPathOf]
  · exact ⟨_, _, _, binPrepareBin_run env q res ws bs hq h1 h2 hmk hdec hwr hz hres, rfl⟩

theorem C4_witness :
    (⟨"app", "/src", "", "", "/sys/", "go", true, [], []⟩ : Preparable).getBinPath
      = some ({ (⟨"app", "/src", "", "", "/sys/", "go", true, [], []⟩ : Preparable) with
                SysFolder := normSys "/sys/" },
              workloadDir "/sys/" "app" ++ "/" ++ "app") :=
  (C4_path_derivation_policy
      ⟨"app", "/src", "", "", "/sys/", "go", true, [], []⟩
      ⟨"app", "", "", "payload", "/sys/", "", "", true, [], []⟩
      ⟨fun _ => none, fun _ => Except.ok [7], fun _ _ => none, FsOracle.allOk, []⟩
      [7] UnzipOutcome.ok _
      (by decide) (by decide) (by decide) (by decide)
      (fun _ => rfl) rfl (fun _ _ => rfl) (Unzip_allOk _ _ _)
      (fun _ h => by cases h)).2.1

/-- C5: a binary-bundle descriptor with a valid payload whose archive
holds `bootstrap` at its root: `PrepareBin` completes without error,
writes the bootstrap entry's bytes to `workloadDir/runtime/bootstrap`
(so the file exists afterwards), and resolves `Cmd` to that same path. -/
theorem C5_bundle_bootstrap_resolved (env : BinEnv) (q : BinaryPreparable)
    (bs : List Nat) (m : Nat) (c : List Nat)
    (hq : q.SysFolder ≠ "")
    (h1 : normSys q.SysFolder ≠ "")
    (h2 : (normSys q.SysFolder).data.getLast? ≠ some '/')
    (hmk : ∀ s, env.mkdirAll s = none)
    (hdec : env.decode q.BZipFile = Except.ok bs)
    (hwr : ∀ s b, env.writeFile s b = none)
    (hfs : env.fs = FsOracle.allOk)
    (hb : ZipEntry.mk "bootstrap" false m c ∈ env.archive)
    (hclean : filepath.Join (workloadDir q.SysFolder q.Name ++ "/runtime") "bootstrap"
        = workloadDir q.SysFolder q.Name ++ "/runtime/bootstrap") :
    ∃ q' ws, BinaryPreparable.PrepareBin env q = some (BinPrepResult.ret q' [] none ws)
      ∧ (workloadDir q.SysFolder q.Name ++ "/runtime/bootstrap", c) ∈ ws
      ∧ q'.Cmd = workloadDir q.SysFolder q.Name ++ "/runtime/bootstrap" := by
  have hz : Unzip env.fs (workloadDir q.SysFolder q.Name ++ "/function.zip")
      (workloadDir q.SysFolder q.Name ++ "/runtime") env.archive
    = (UnzipOutcome.ok, env.archive.filterMap fun f =>
        if f.isDir then none
        else some (filepath.Join (workloadDir q.SysFolder q.Name ++ "/runtime") f.name,
                   f.content)) := by
    rw [hfs]; exact Unzip_allOk _ _ _
  refine ⟨_, _,
    binPrepareBin_run env q UnzipOutcome.ok _ bs hq h1 h2 hmk hdec hwr hz
      (fun _ h => by cases h), ?_, rfl⟩
  apply List.mem_cons_of_mem
  rw [← hclean]
  exact List.mem_filterMap.2 ⟨ZipEntry.mk "bootstrap" false m c, hb, by simp⟩

theorem C5_witness :
    ∃ q' ws, BinaryPreparable.PrepareBin
        ⟨fun _ => none, fun _ => Except.ok [7], fun _ _ => none,
         FsOracle.allOk, [⟨"bootstrap", false, 493, [9]⟩]⟩
        ⟨"app", "", "", "payload", "/sys", "", "", true, [], []⟩
      = some (BinPrepResult.ret q' [] none ws)
      ∧ (workloadDir "/sys" "app" ++ "/runtime/bootstrap", [9]) ∈ ws
      ∧ q'.Cmd = workloadDir "/sys" "app" ++ "/runtime/bootstrap" :=
  C5_bundle_bootstrap_resolved _ _ [7] 493 [9]
    (by decide) (by decide) (by decide) (fun _ => rfl) rfl (fun _ _ => rfl) rfl
    (by decide) (by decide)

/-- C6: a source-build descriptor with a `'/'`-terminated source path and
a failing toolchain: `PrepareBin` returns the captured toolchain output
together with the non-nil error, and `Cmd` is nevertheless set to the
deterministically derived `sysFolder/name/name`. -/
theorem C6_build_failure_surfaced (exec : ExecOracle) (p : Preparable)
    (out : List Nat) (e : GoError)
    (hsrc : p.SourcePath.data.getLast? = some '/')
    (hp : p.SysFolder ≠ "")
    (hlang : p.Language = "go")
    (hexec : exec "go" ["build", "-o", workloadDir p.SysFolder p.Name ++ "/" ++ p.Name,
        String.mk p.SourcePath.data.dropLast ++ "/."] = (out, some e)) :
    Preparable.PrepareBin exec p = some
      ({ p with SourcePath := String.mk p.SourcePath.data.dropLast,
                SysFolder := normSys p.SysFolder,
                Cmd := workloadDir p.SysFolder p.Name ++ "/" ++ p.Name },
       out, some e) := by
  have hbin := Preparable.getBinPath_eq
    { p with SourcePath := String.mk p.SourcePath.data.dropLast } hp
  simp only [workloadDir, hlang] at hbin hexec ⊢
  simp only [Preparable.PrepareBin, hsrc, hlang, if_true]
  rw [hbin]
  simp [hexec]

theorem C6_witness :
    Preparable.PrepareBin (fun _ _ => ([3], some "exit status 1"))
      ⟨"app", "/src/", "", "", "/sys", "go", true, [], []⟩
    = some ({ (⟨"app", "/src/", "", "", "/sys", "go", true, [], []⟩ : Preparable) with
              SourcePath := String.mk "/src/".data.dropLast,
              SysFolder := normSys "/sys",
              Cmd := workloadDir "/sys" "app" ++ "/" ++ "app" },
            [3], some "exit status 1") :=
  C6_build_failure_surfaced _ _ [3] "exit status 1" (by decide) (by decide) rfl rfl

/-- C7: a single added or removed trailing separator on `sysFolder` (and,
for the source-build variant, on `sourcePath`) changes no derived path:
each derivation, and the whole source-build `PrepareBin`, gives identical
results for `s ++ "/"` and `s`. -/
theorem C7_trailing_separator_invariance (p : Preparable) (q : BinaryPreparable)
    (exec : ExecOracle) (s sp : String)
    (hs : s ≠ "") (hs2 : s.data.getLast? ≠ some '/')
    (hsp : sp ≠ "") (hsp2 : sp.data.getLast? ≠ some '/') :
    ({ p with SysFolder := s ++ "/" } : Preparable).getBinPath
      = ({ p with SysFolder := s } : Preparable).getBinPath
  ∧ ({ p with SysFolder := s ++ "/" } : Preparable).getPidPath
      = ({ p with SysFolder := s } : Preparable).getPidPath
  ∧ ({ p with SysFolder := s ++ "/" } : Preparable).getOutPath
      = ({ p with SysFolder := s } : Preparable).getOutPath
  ∧ ({ p with SysFolder := s ++ "/" } : Preparable).getErrPath
      = ({ p with SysFolder := s } : Preparable).getErrPath
  ∧ ({ q with SysFolder := s ++ "/" } : BinaryPreparable).getPath
      = ({ q with SysFolder := s } : BinaryPreparable).getPath
  ∧ ({ q with SysFolder := s ++ "/" } : BinaryPreparable).getPidPath
      = ({ q with SysFolder := s } : BinaryPreparable).getPidPath
  ∧ ({ q with SysFolder := s ++ "/" } : BinaryPreparable).getOutPath
      = ({ q with SysFolder := s } : BinaryPreparable).getOutPath
  ∧ ({ q with SysFolder := s ++ "/" } : BinaryPreparable).getErrPath
      = ({ q with SysFolder := s } : BinaryPreparable).getErrPath
  ∧ Preparable.PrepareBin exec { p with SourcePath := sp ++ "/" }
      = Preparable.PrepareBin exec { p with SourcePath := sp } := by
  have hgp : ({ p with SysFolder := s ++ "/" } : Preparable).getPath
      = ({ p with SysFolder := s } : Preparable).getPath := by
    rw [Preparable.getPath_eq _ (append_slash_ne_empty s), Preparable.getPath_eq _ hs]
    simp [workloadDir, normSys_append_slash, normSys_eq_self hs2]
  have hgq : ({ q with SysFolder := s ++ "/" } : BinaryPreparable).getPath
      = ({ q with SysFolder := s } : BinaryPreparable).getPath := by
    rw [binary_getPath_eq _ (append_slash_ne_empty s), binary_getPath_eq _ hs]
    simp [workloadDir, normSys_append_slash, normSys_eq_self hs2]
  obtain ⟨c, hc⟩ := exists_getLast?_data hsp
  have hcs : ¬ c = '/' := fun h => hsp2 (h ▸ hc)
  refine ⟨?_, ?_, ?_, ?_, hgq, ?_, ?_, ?_, ?_⟩
  · simp only [Preparable.getBinPath, hgp]
  · simp only [Preparable.getPidPath, Preparable.getBinPath, hgp]
  · simp only [Preparable.getOutPath, Preparable.getBinPath, hgp]
  · simp only [Preparable.getErrPath, Preparable.getBinPath, hgp]
  · simp only [BinaryPreparable.getPidPath, hgq]
  · simp only [BinaryPreparable.getOutPath, hgq]
  · simp only [BinaryPreparable.getErrPath, hgq]
  · simp only [Preparable.PrepareBin, getLast?_data_append_slash, hc, hcs, if_true, if_false,
      mk_dropLast_data_append_slash]

theorem C7_witness :
    ({ (⟨"app", "/src", "", "", "ignored", "go", true, [], []⟩ : Preparable) with
       SysFolder := "/a" ++ "/" } : Preparable).getBinPath
      = ({ (⟨"app", "/src", "", "", "ignored", "go", true, [], []⟩ : Preparable) with
           SysFolder := "/a" } : Preparable).getBinPath :=
  (C7_trailing_separator_invariance
      ⟨"app", "/src", "", "", "ignored", "go", true, [], []⟩
      ⟨"app", "", "", "payload", "ignored", "", "", true, [], []⟩
      (fun _ _ => ([], none)) "/a" "/src"
      (by decide) (by decide) (by decide) (by decide)).1

/-- C8: the derived pid/out/err paths of both variants are pure functions
of `(sysFolder, name)` — each equals `pidPathOf`/`outPathOf`/`errPathOf`
applied to exactly those two fields — and repeating the same derivation on
the descriptor returned by the first call yields the same path again. -/
theorem C8_derived_paths_pure_and_stable (p : Preparable) (q : BinaryPreparable)
    (hp : p.SysFolder ≠ "") (hp1 : normSys p.SysFolder ≠ "")
    (hp2 : (normSys p.SysFolder).data.getLast? ≠ some '/')
    (hq : q.SysFolder ≠ "") (hq1 : normSys q.SysFolder ≠ "")
    (hq2 : (normSys q.SysFolder).data.getLast? ≠ some '/') :
    p.getPidPath = some ({ p with SysFolder := normSys p.SysFolder },
      pidPathOf p.SysFolder p.Name)
  ∧ p.getOutPath = some ({ p with SysFolder := normSys p.SysFolder },
      outPathOf p.SysFolder p.Name)
  ∧ p.getErrPath = some ({ p with SysFolder := normSys p.SysFolder },
      errPathOf p.SysFolder p.Name)
  ∧ ({ p with SysFolder := normSys p.SysFolder } : Preparable).getPidPath
      = some ({ p with SysFolder := normSys p.SysFolder }, pidPathOf p.SysFolder p.Name)
  ∧ ({ p with SysFolder := normSys p.SysFolder } : Preparable).getOutPath
      = some ({ p with SysFolder := normSys p.SysFolder }, outPathOf p.SysFolder p.Name)
  ∧ ({ p with SysFolder := normSys p.SysFolder } : Preparable).getErrPath
      = some ({ p with SysFolder := normSys p.SysFolder }, errPathOf p.SysFolder p.Name)
  ∧ q.getPidPath = some ({ q with SysFolder := normSys q.SysFolder },
      pidPathOf q.SysFolder q.Name)
  ∧ q.getOutPath = some ({ q with SysFolder := normSys q.SysFolder },
      outPathOf q.SysFolder q.Name)
  ∧ q.getErrPath = some ({ q with SysFolder := normSys q.SysFolder },
      errPathOf q.SysFolder q.Name)
  ∧ ({ q with SysFolder := normSys q.SysFolder } : BinaryPreparable).getPidPath
      = some ({ q with SysFolder := normSys q.SysFolder }, pidPathOf q.SysFolder q.Name)
  ∧ ({ q with SysFolder := normSys q.SysFolder } : BinaryPreparable).getOutPath
      = some ({ q with SysFolder := normSys q.SysFolder }, outPathOf q.SysFolder q.Name)
  ∧ ({ q with SysFolder := normSys q.SysFolder } : BinaryPreparable).getErrPath
      = some ({ q with SysFolder := normSys q.SysFolder }, errPathOf q.SysFolder q.Name) := by
  refine ⟨Preparable.getPidPath_eq p hp, Preparable.getOutPath_eq p hp,
    Preparable.getErrPath_eq p hp, ?_, ?_, ?_,
    binary_getPidPath_eq q hq, binary_getOutPath_eq q hq,
    binary_getErrPath_eq q hq, ?_, ?_, ?_⟩
  · rw [Preparable.getPidPath_eq _ hp1]
    simp [pidPathOf, workloadDir, normSys_eq_self hp2]
  · rw [Preparable.getOutPath_eq _ hp1]
    simp [outPathOf, workloadDir, normSys_eq_self hp2]
  · rw [Preparable.getErrPath_eq _ hp1]
    simp [errPathOf, workloadDir, normSys_eq_self hp2]
  · rw [binary_getPidPath_eq _ hq1]
    simp [pidPathOf, workloadDir, normSys_eq_self hq2]
  · rw [binary_getOutPath_eq _ hq1]
    simp [outPathOf, workloadDir, normSys_eq_self hq2]
  · rw [binary_getErrPath_eq _ hq1]
    simp [errPathOf, workloadDir, normSys_eq_self hq2]

theorem C8_witness :
    (⟨"app", "/src", "", "", "/sys", "go", true, [], []⟩ : Preparable).getPidPath
      = some ({ (⟨"app", "/src", "", "", "/sys", "go", true, [], []⟩ : Preparable) with
                SysFolder := normSys "/sys" }, pidPathOf "/sys" "app") :=
  (C8_derived_paths_pure_and_stable
      ⟨"app", "/src", "", "", "/sys", "go", true, [], []⟩
      ⟨"app", "", "", "payload", "/sys", "", "", true, [], []⟩
      (by decide) (by decide) (by decide) (by decide) (by decide) (by decide)).1

/-- C9: writing an encodable workload registry with the locked TOML write
and reading the same path back with the locked TOML read returns a value
equal to the one written. -/
theorem C9_safe_toml_roundtrip (v : List ProcData) (fpath : String) (fs : TomlFs) :
    SafeReadTomlFile fpath (SafeWriteTomlFile v fpath fs) = Except.ok v := by
  simp [SafeReadTomlFile, SafeWriteTomlFile, lookupKey, encodeRegistry,
    decodeRegistry, mapMOption_decodeProcData]

/-- C10: the last-byte reads have no emptiness guard, so the embedded
operations are undefined (`none`, the runtime panic) exactly as claimed:
source-build `PrepareBin` on an empty `SourcePath`; every
`getPath`-derived path of either variant, and both `PrepareBin`s, on an
empty `SysFolder`. -/
theorem C10_empty_inputs_undefined :
    (∀ (exec : ExecOracle) (p : Preparable), p.SourcePath = "" →
      Preparable.PrepareBin exec p = none)
  ∧ (∀ p : Preparable, p.SysFolder = "" →
      p.getPath = none ∧ p.getBinPath = none ∧ p.getPidPath = none
        ∧ p.getOutPath = none ∧ p.getErrPath = none)
  ∧ (∀ (exec : ExecOracle) (p : Preparable), p.SysFolder = "" → p.SourcePath ≠ "" →
      Preparable.PrepareBin exec p = none)
  ∧ (∀ q : BinaryPreparable, q.SysFolder = "" →
      q.getPath = none ∧ q.getPidPath = none ∧ q.getOutPath = none ∧ q.getErrPath = none)
  ∧ (∀ (env : BinEnv) (q : BinaryPreparable), q.SysFolder = "" →
      BinaryPreparable.PrepareBin env q = none) := by
  refine ⟨?_, ?_, ?_, ?_, ?_⟩
  · intro exec p h
    have hd : p.SourcePath.data.getLast? = none := by rw [h]; rfl
    simp [Preparable.PrepareBin, hd]
  · intro p h
    have h2 := Preparable.getBinPath_none p h
    exact ⟨Preparable.getPath_none p h, h2, by simp [Preparable.getPidPath, h2],
      by simp [Preparable.getOutPath, h2], by simp [Preparable.getErrPath, h2]⟩
  · intro exec p h hne
    obtain ⟨c, hc⟩ := exists_getLast?_data hne
    by_cases hcs : c = '/'
    · subst hcs
      simp [Preparable.PrepareBin, hc, Preparable.getBinPath_none
        { p with SourcePath := String.mk p.SourcePath.data.dropLast } h]
    · simp [Preparable.PrepareBin, hc, hcs, Preparable.getBinPath_none p h]
  · intro q h
    have h1 := binary_getPath_none q h
    exact ⟨h1, by simp [BinaryPreparable.getPidPath, h1],
      by simp [BinaryPreparable.getOutPath, h1], by simp [BinaryPreparable.getErrPath, h1]⟩
  · intro env q h
    simp [BinaryPreparable.PrepareBin, BinaryPreparable.getOutPath,
      binary_getPath_none q h]

theorem C10_witness :
    Preparable.PrepareBin (fun _ _ => ([], none))
        ⟨"app", "", "", "", "/sys", "go", true, [], []⟩ = none
  ∧ (Preparable.getPath ⟨"app", "/src", "", "", "", "go", true, [], []⟩ = none)
  ∧ BinaryPreparable.PrepareBin
        ⟨fun _ => none, fun _ => Except.ok [], fun _ _ => none, FsOracle.allOk, []⟩
        ⟨"app", "", "", "payload", "", "", "go", true, [], []⟩ = none :=
  ⟨C10_empty_inputs_undefined.1 _ _ rfl,
   (C10_empty_inputs_undefined.2.1 _ rfl).1,
   C10_empty_inputs_undefined.2.2.2.2 _ _ rfl⟩
